import Mathlib

/-!
Verification of the gitversion core (pkg/version/version.go).

The Go source is embedded shallowly: hashes are hex strings, commit
ancestry is the list of commits visited by the log traversal (HEAD
first), the tag store is the list of tag references in enumeration
order, and the working-tree status is an optional (error-aware) list of
per-file status codes.  Machine-level concerns (clock reads, filesystem
stats) are passed in as explicit data.
-/

namespace GitVersion

/-- Status codes of go-git (git.StatusCode): the source only
distinguishes Untracked and Unmodified from everything else. -/
inductive StatusCode where
  | unmodified
  | untracked
  | modified
  | added
  | deleted
  | renamed
  | copied
  | updatedButUnmerged
deriving DecidableEq

/-- One entry of the worktree status map: staging-area code and
worktree code, as in go-git's FileStatus. -/
structure FileStatus where
  staging : StatusCode
  worktree : StatusCode

/-- Embeds hasUncommittedChanges (version.go:173-198).  The input
models the two fallible reads: `none` is a failing repo.Worktree()
call, `some none` a failing worktree.Status() call, and
`some (some l)` a successful status read listing the file entries.
The loop over the status map is an existential scan. -/
def hasUncommittedChanges : Option (Option (List FileStatus)) → Bool
  | none => false
  | some none => false
  | some (some status) =>
      status.any fun fs =>
        (fs.staging != StatusCode.untracked && fs.staging != StatusCode.unmodified) ||
        (fs.worktree != StatusCode.untracked && fs.worktree != StatusCode.unmodified)

/-- Embeds createBranchSlug (version.go:202-212): replace '/' with '-',
replace '_' with '-', then the regexp [^a-zA-Z0-9-]+ deletes every
remaining character that is not ASCII alphanumeric or '-'. -/
def createBranchSlug (branch : String) : String :=
  let slug1 := branch.data.map fun c => if c = '/' then '-' else c
  let slug2 := slug1.map fun c => if c = '_' then '-' else c
  String.mk (slug2.filter fun c => c.isAlphanum || c = '-')

/-- Embeds hash.String()[:7] (version.go): the 7-character short hash. -/
def commitShortOf (h : String) : String :=
  String.mk (h.data.take 7)

/-- Embeds the tag-map construction of getGitDescribe
(version.go:222-230): `tagMap[ref.Hash()] = ref.Name().Short()` in
enumeration order, so a later reference to the same commit overwrites
an earlier one (last one wins). -/
def buildTagMap (refs : List (String × String)) (h : String) : Option String :=
  match refs with
  | [] => none
  | r :: rest =>
      match buildTagMap rest h with
      | some t => some t
      | none => if r.1 = h then some r.2 else none

/-- Embeds the commit-history loop of getGitDescribe
(version.go:237-256): walk the log, stop at the first commit present in
the tag map (returning its tag name and the distance accumulated so
far), and increment the distance for every untagged commit visited.
When the history is exhausted the foundTag stays "". -/
def findTagFrom (tagMap : String → Option String) : List String → Nat → String × Nat
  | [], d => ("", d)
  | c :: rest, d =>
      match tagMap c with
      | some t => (t, d)
      | none => findTagFrom tagMap rest (d + 1)

/-- Embeds getGitDescribe (version.go:216-266).  `log` is the list of
commits the repo.Log iterator yields starting From `hash` (so `hash`
itself is its first element in a well-formed state).  Exact tag match
returns immediately; otherwise the history walk runs and the result is
rendered as "tag-distance-gshort" when a tag with a non-empty name was
found. -/
def getGitDescribe (tagMap : String → Option String) (hash : String)
    (log : List String) : String × String :=
  match tagMap hash with
  | some tagName => (tagName, tagName)
  | none =>
      let fd := findTagFrom tagMap log 0
      if fd.1 ≠ "" then
        (fd.1 ++ "-" ++ toString fd.2 ++ "-g" ++ commitShortOf hash, fd.1)
      else
        ("", "")

/-- A UTC wall-clock instant broken into calendar fields, as consumed
by Go's time.Format. -/
structure DateTime where
  year : Nat
  month : Nat
  day : Nat
  hour : Nat
  minute : Nat
  second : Nat

/-- The ASCII digit for n % 10. -/
def digitChar (n : Nat) : Char :=
  Char.ofNat (48 + n % 10)

/-- Two-digit zero-padded decimal, as Go's time.Format layout "01",
"02", "15", "04", "05" renders in-range calendar fields. -/
def pad2 (n : Nat) : String :=
  String.mk [digitChar (n / 10), digitChar n]

/-- Four-digit zero-padded decimal, as Go's time.Format layout "2006"
renders years up to 9999. -/
def pad4 (n : Nat) : String :=
  String.mk [digitChar (n / 1000), digitChar (n / 100), digitChar (n / 10), digitChar n]

/-- Embeds time.Now().UTC().Format("20060102150405")
(version.go:113): the 14-digit YYYYMMDDHHMMSS dirty-suffix timestamp. -/
def formatTimestamp (t : DateTime) : String :=
  pad4 t.year ++ pad2 t.month ++ pad2 t.day ++ pad2 t.hour ++ pad2 t.minute ++ pad2 t.second

/-- Embeds time.Now().UTC().Format("2006-01-02T15:04:05Z")
(version.go:58): the informational BuildTime field. -/
def formatBuildTime (t : DateTime) : String :=
  pad4 t.year ++ "-" ++ pad2 t.month ++ "-" ++ pad2 t.day ++ "T" ++
    pad2 t.hour ++ ":" ++ pad2 t.minute ++ ":" ++ pad2 t.second ++ "Z"

/-- Embeds the branch/tag decision of GetVersionInfo
(version.go:99-109): on the default branch a non-empty describe wins,
otherwise (and on every other branch) "slug-gshort" is used. -/
def baseVersion (branch defaultBranch describe slug short : String) : String :=
  if branch = defaultBranch then
    if describe ≠ "" then describe
    else slug ++ "-g" ++ short
  else
    slug ++ "-g" ++ short

/-- Embeds the dirty-suffix step of GetVersionInfo (version.go:111-115):
a dirty tree appends "-" and the formatted UTC timestamp. -/
def applyDirtySuffix (base : String) (dirty : Bool) (now : DateTime) : String :=
  if dirty then base ++ "-" ++ formatTimestamp now else base

/-- The observable state of an opened repository, as read by
GetVersionInfo: HEAD hash, HEAD branch name (none models a detached
HEAD), tag references in enumeration order, the log traversal from
HEAD, the fallible worktree status, the resolved origin/HEAD short name
(if any) and the local branch names, for default-branch detection. -/
structure RepoState where
  headHash : String
  headBranch : Option String
  tagRefs : List (String × String)
  log : List String
  worktree : Option (Option (List FileStatus))
  originHead : Option String
  branches : List String

/-- Embeds detectDefaultBranch (version.go:131-166): use the
origin/HEAD symbolic ref with its "origin/" prefix stripped, else the
first of main/master that exists as a local branch, else "main". -/
def detectDefaultBranch (s : RepoState) : String :=
  match s.originHead with
  | some refName =>
      if refName.data.take 7 = "origin/".data then String.mk (refName.data.drop 7)
      else refName
  | none =>
      if s.branches.contains "main" then "main"
      else if s.branches.contains "master" then "master"
      else "main"

/-- The VersionInfo record (version.go Info struct). -/
structure Info where
  version : String
  gitCommit : String
  gitCommitShort : String
  gitBranch : String
  gitBranchSlug : String
  gitDescribe : String
  latestTag : String
  buildTime : String
  isDirty : Bool
  defaultBranch : String
deriving DecidableEq

/-- Embeds the body of GetVersionInfo after the repository is opened
(version.go:56-118): detect the default branch when the argument is
empty, resolve branch/slug/describe/dirty, and compose the version. -/
def resolveState (defaultBranchArg : String) (s : RepoState) (now : DateTime) : Info :=
  let defaultBranch := if defaultBranchArg = "" then detectDefaultBranch s else defaultBranchArg
  let commitShort := commitShortOf s.headHash
  let branch := s.headBranch.getD "HEAD"
  let slug := createBranchSlug branch
  let dt := getGitDescribe (buildTagMap s.tagRefs) s.headHash s.log
  let dirty := hasUncommittedChanges s.worktree
  let base := baseVersion branch defaultBranch dt.1 slug commitShort
  { version := applyDirtySuffix base dirty now
    gitCommit := s.headHash
    gitCommitShort := commitShort
    gitBranch := branch
    gitBranchSlug := slug
    gitDescribe := dt.1
    latestTag := dt.2
    buildTime := formatBuildTime now
    isDirty := dirty
    defaultBranch := defaultBranch }

/-- Embeds the .git upward walk of GetVersionInfo (version.go:33-52).
A path is its list of segments, deepest first, so the parent directory
is the tail and [] is the filesystem root.  `hasGit p` models the
os.Stat check for a .git entry at p.  The walk checks the current
candidate (the filesystem root included) and moves to the parent;
reaching the root without a marker is the RepositoryNotFound error,
modelled as none. -/
def findGitRoot (hasGit : List String → Bool) : List String → Option (List String)
  | [] => if hasGit [] then some [] else none
  | seg :: p =>
      if hasGit (seg :: p) then some (seg :: p)
      else findGitRoot hasGit p

/-- Embeds GetVersionInfo end to end (version.go:31-118): locate the
repository root from the starting path, then resolve everything from
the repository found there.  `repoAt` gives the repository state stored
at each root; the rest of the source reads only from the repository
opened at gitRoot. -/
def getVersionInfo (hasGit : List String → Bool) (repoAt : List String → RepoState)
    (defaultBranchArg : String) (now : DateTime) (path : List String) : Option Info :=
  (findGitRoot hasGit path).map fun root => resolveState defaultBranchArg (repoAt root) now

/-- Modelled from the spec: "distance is defined as number of commits
strictly between the found tag and HEAD along the traversal path".
Counts the untagged commits that follow HEAD in the traversal before
the first tagged commit. -/
def strictlyBetweenCount (tagMap : String → Option String) (log : List String) : Nat :=
  match log with
  | [] => 0
  | _head :: rest => (rest.takeWhile fun c => (tagMap c).isNone).length

/-- A tag store with one tag v1.0.0 on commit 2222222222, for evaluating the
describe engine one commit past the tag. -/
def exTagMapC2 : String → Option String :=
  fun h => if h = "2222222222" then some "v1.0.0" else none

/-- A tag store with one tag v1.0.0 on commit tag1111111, for evaluating the
describe engine five commits past the tag. -/
def exTagMapC2w : String → Option String :=
  fun h => if h = "tag1111111" then some "v1.0.0" else none

/-- An always-empty tag store. -/
def exTagMapC6 : String → Option String := fun _ => none

/-- Two tags on the same commit h1, enumerated v1.0.0 first. -/
def exTagRefsA : List (String × String) := [("h1", "v1.0.0"), ("h1", "v1.0.1")]

/-- The same two tags on commit h1, enumerated v1.0.1 first. -/
def exTagRefsB : List (String × String) := [("h1", "v1.0.1"), ("h1", "v1.0.0")]

/-- A clean repository on branch feature/x whose single commit carries tag
v1.0.0. -/
def exStateC3 : RepoState :=
  { headHash := "abcdef0123"
    headBranch := some "feature/x"
    tagRefs := [("abcdef0123", "v1.0.0")]
    log := ["abcdef0123"]
    worktree := some (some [])
    originHead := none
    branches := ["main"] }

/-- A clean repository on branch main whose single commit carries tag
v1.0.0. -/
def exStateC5 : RepoState :=
  { headHash := "abcdef0123"
    headBranch := some "main"
    tagRefs := [("abcdef0123", "v1.0.0")]
    log := ["abcdef0123"]
    worktree := some (some [])
    originHead := none
    branches := ["main"] }

/-- A filesystem with a single .git marker at /repo. -/
def exHasGit : List String → Bool := fun p => p == ["repo"]

/-- A clean untagged repository on branch main. -/
def exStateC9 : RepoState :=
  { headHash := "abcdef0123"
    headBranch := some "main"
    tagRefs := []
    log := ["abcdef0123"]
    worktree := some (some [])
    originHead := none
    branches := ["main"] }

/-- The repository stored at every root of the example filesystem. -/
def exRepoAt : List String → RepoState := fun _ => exStateC9

/-! Helper lemmas -/

theorem digitChar_isDigit (n : Nat) : (digitChar n).isDigit = true := by
  have hlt : n % 10 < 10 := Nat.mod_lt _ (by norm_num)
  have hall : ∀ k < 10, (Char.ofNat (48 + k)).isDigit = true := by decide
  exact hall _ hlt

theorem pad2_length (n : Nat) : (pad2 n).length = 2 := rfl

theorem pad4_length (n : Nat) : (pad4 n).length = 4 := rfl

theorem formatTimestamp_length (t : DateTime) : (formatTimestamp t).length = 14 := by
  simp [formatTimestamp, String.length_append, pad2_length, pad4_length]

theorem formatTimestamp_digits (t : DateTime) :
    ((formatTimestamp t).data.all fun c => c.isDigit) = true := by
  simp [formatTimestamp, String.data_append, pad2, pad4, List.all_append, digitChar_isDigit]

theorem string_append_eq_empty_iff (a b : String) : a ++ b = "" ↔ a = "" ∧ b = "" := by
  constructor
  · intro h
    have hd : a.data ++ b.data = [] := by
      have h2 := congrArg String.data h
      simpa [String.data_append] using h2
    rcases List.append_eq_nil.mp hd with ⟨ha, hb⟩
    exact ⟨String.ext ha, String.ext hb⟩
  · rintro ⟨ha, hb⟩
    subst ha; subst hb; rfl

theorem string_append_ne_empty_left (a b : String) (h : a ≠ "") : a ++ b ≠ "" := by
  intro hab
  exact h (string_append_eq_empty_iff a b |>.mp hab).1

theorem findTagFrom_not_found (tagMap : String → Option String)
    (htags : ∀ c t, tagMap c = some t → t ≠ "") :
    ∀ (l : List String) (d : Nat), (findTagFrom tagMap l d).1 = "" →
      ∀ c ∈ l, tagMap c = none := by
  intro l
  induction l with
  | nil => intro d _ c hc; cases hc
  | cons x xs ih =>
    intro d h c hc
    cases hx : tagMap x with
    | some t =>
      simp [findTagFrom, hx] at h
      exact absurd h (htags x t hx)
    | none =>
      simp [findTagFrom, hx] at h
      rcases List.mem_cons.mp hc with hcx | hcs
      · subst hcx; exact hx
      · exact ih (d + 1) h c hcs

theorem findTagFrom_found_mem (tagMap : String → Option String) :
    ∀ (l : List String) (d : Nat), (findTagFrom tagMap l d).1 ≠ "" →
      ∃ c ∈ l, tagMap c = some (findTagFrom tagMap l d).1 := by
  intro l
  induction l with
  | nil => intro d h; simp [findTagFrom] at h
  | cons x xs ih =>
    intro d h
    cases hx : tagMap x with
    | some t =>
      refine ⟨x, List.mem_cons_self x xs, ?_⟩
      simp [findTagFrom, hx]
    | none =>
      simp [findTagFrom, hx] at h ⊢
      rcases ih (d + 1) h with ⟨c, hc, hcm⟩
      exact ⟨c, hc, hcm⟩

theorem findTagFrom_found_distance (tagMap : String → Option String) :
    ∀ (l : List String) (d : Nat) (t : String) (k : Nat),
      findTagFrom tagMap l d = (t, k) → t ≠ "" →
      k = d + (l.takeWhile fun c => (tagMap c).isNone).length := by
  intro l
  induction l with
  | nil =>
    intro d t k h ht
    simp [findTagFrom] at h
    exact absurd h.1.symm ht
  | cons x xs ih =>
    intro d t k h ht
    cases hx : tagMap x with
    | some t' =>
      simp [findTagFrom, hx] at h
      simp [List.takeWhile_cons, hx]
      omega
    | none =>
      simp [findTagFrom, hx] at h
      have hk := ih (d + 1) t k h ht
      simp [List.takeWhile_cons, hx]
      omega

theorem findGitRoot_self (hasGit : List String → Bool) (p : List String)
    (h : hasGit p = true) : findGitRoot hasGit p = some p := by
  cases p <;> simp [findGitRoot, h]

theorem findGitRoot_descendant (hasGit : List String → Bool) (root : List String)
    (hroot : hasGit root = true) :
    ∀ extra : List String,
      (∀ e, e <:+ extra → e ≠ [] → hasGit (e ++ root) = false) →
      findGitRoot hasGit (extra ++ root) = some root := by
  intro extra
  induction extra with
  | nil => intro _; simpa using findGitRoot_self hasGit root hroot
  | cons x xs ih =>
    intro h
    have hx : hasGit ((x :: xs) ++ root) = false :=
      h (x :: xs) (List.suffix_refl _) (by simp)
    have hx' : hasGit (x :: (xs ++ root)) = false := by simpa using hx
    have hstep : findGitRoot hasGit ((x :: xs) ++ root) = findGitRoot hasGit (xs ++ root) := by
      simp [findGitRoot, hx']
    rw [hstep]
    exact ih fun e he hne => h e (he.trans (List.suffix_cons x xs)) hne

/-! Claim theorems -/

/-- C1: the Version Composer follows the decision table: on the default branch
a non-empty describe is the base version, an empty describe gives
"{branchSlug}-g{commitShort}"; a dirty tree appends '-' and the 14-digit
all-numeric UTC timestamp to the base version, and a clean tree leaves the
base version unchanged. -/
theorem c1_version_composer_decision_table
    (branch db describe slug short : String) (dirty : Bool) (now : DateTime)
    (hy : now.year ≤ 9999) (hmo : now.month ≤ 12) (hda : now.day ≤ 31)
    (hho : now.hour ≤ 23) (hmi : now.minute ≤ 59) (hse : now.second ≤ 59) :
    (branch = db → describe ≠ "" → baseVersion branch db describe slug short = describe) ∧
    (branch = db → describe = "" →
      baseVersion branch db describe slug short = slug ++ "-g" ++ short) ∧
    (dirty = true →
      applyDirtySuffix (baseVersion branch db describe slug short) dirty now =
        baseVersion branch db describe slug short ++ "-" ++ formatTimestamp now ∧
      (formatTimestamp now).length = 14 ∧
      ((formatTimestamp now).data.all fun c => c.isDigit) = true) ∧
    (dirty = false →
      applyDirtySuffix (baseVersion branch db describe slug short) dirty now =
        baseVersion branch db describe slug short) := by
  refine ⟨?_, ?_, ?_, ?_⟩
  · intro hb hd
    simp [baseVersion, hb, hd]
  · intro hb hd
    simp [baseVersion, hb, hd]
  · intro hdirty
    subst hdirty
    exact ⟨rfl, formatTimestamp_length now, formatTimestamp_digits now⟩
  · intro hdirty
    subst hdirty
    rfl

/-- Witness for C1 at branch main, describe v1.0.0, dirty, 2025-10-11
12:34:56 UTC. -/
theorem c1_witness :
    (("main" : String) = "main" → ("v1.0.0" : String) ≠ "" →
      baseVersion "main" "main" "v1.0.0" "main" "abcdef0" = "v1.0.0") ∧
    (("main" : String) = "main" → ("v1.0.0" : String) = "" →
      baseVersion "main" "main" "v1.0.0" "main" "abcdef0" = "main" ++ "-g" ++ "abcdef0") ∧
    (true = true →
      applyDirtySuffix (baseVersion "main" "main" "v1.0.0" "main" "abcdef0") true
          ⟨2025, 10, 11, 12, 34, 56⟩ =
        baseVersion "main" "main" "v1.0.0" "main" "abcdef0" ++ "-" ++
          formatTimestamp ⟨2025, 10, 11, 12, 34, 56⟩ ∧
      (formatTimestamp (⟨2025, 10, 11, 12, 34, 56⟩ : DateTime)).length = 14 ∧
      ((formatTimestamp (⟨2025, 10, 11, 12, 34, 56⟩ : DateTime)).data.all
        fun c => c.isDigit) = true) ∧
    (true = false →
      applyDirtySuffix (baseVersion "main" "main" "v1.0.0" "main" "abcdef0") true
          ⟨2025, 10, 11, 12, 34, 56⟩ =
        baseVersion "main" "main" "v1.0.0" "main" "abcdef0") :=
  c1_version_composer_decision_table "main" "main" "v1.0.0" "main" "abcdef0" true
    ⟨2025, 10, 11, 12, 34, 56⟩ (by decide) (by decide) (by decide) (by decide)
    (by decide) (by decide)

/-- C3: off the default branch the base version is "{branchSlug}-g{commitShort}"
regardless of the describe value, and in the full pipeline a clean repository
on a non-default branch whose HEAD carries a tag still resolves to
"{branchSlug}-g{commitShort}": the tag is ignored. -/
theorem c3_non_default_branch_ignores_tags :
    (∀ branch db describe slug short : String, branch ≠ db →
      baseVersion branch db describe slug short = slug ++ "-g" ++ short) ∧
    (∀ (db : String) (s : RepoState) (now : DateTime) (b t : String),
      db ≠ "" → s.headBranch = some b → b ≠ db →
      buildTagMap s.tagRefs s.headHash = some t →
      hasUncommittedChanges s.worktree = false →
      (resolveState db s now).version =
        createBranchSlug b ++ "-g" ++ commitShortOf s.headHash) := by
  constructor
  · intro branch db describe slug short hb
    simp [baseVersion, hb]
  · intro db s now b t hdb hb hbd htag hclean
    simp [resolveState, hdb, hb, hclean, baseVersion, hbd, applyDirtySuffix]

/-- Witness for C3: branch feature/x against default main, HEAD exactly at tag
v1.0.0, clean tree. -/
theorem c3_witness :
    baseVersion "feature-x" "main" "v1.0.0" "feature-x" "abcdef0" =
      "feature-x" ++ "-g" ++ "abcdef0" ∧
    (resolveState "main" exStateC3 ⟨2025, 10, 11, 0, 0, 0⟩).version =
      createBranchSlug "feature/x" ++ "-g" ++ commitShortOf "abcdef0123" :=
  ⟨c3_non_default_branch_ignores_tags.1 "feature-x" "main" "v1.0.0" "feature-x" "abcdef0"
      (by decide),
   c3_non_default_branch_ignores_tags.2 "main" exStateC3 ⟨2025, 10, 11, 0, 0, 0⟩
      "feature/x" "v1.0.0" (by decide) rfl (by decide) (by decide) rfl⟩

/-- C4: every character of a branch slug is ASCII alphanumeric or '-' (the
slug replaces '/' and '_' by '-' and then deletes everything else outside
that alphabet), and createBranchSlug "feature/test@123" = "feature-test123". -/
theorem c4_branch_slug_charset_and_example :
    (∀ branch : String,
      ((createBranchSlug branch).data.all fun c => c.isAlphanum || c = '-') = true) ∧
    createBranchSlug "feature/test@123" = "feature-test123" := by
  constructor
  · intro branch
    have hfil : ∀ l : List Char,
        ((l.filter fun c => c.isAlphanum || c = '-').all fun c => c.isAlphanum || c = '-') = true := by
      intro l
      rw [List.all_eq_true]
      intro c hc
      exact (List.mem_filter.mp hc).2
    exact hfil _
  · decide

/-- C8: when the worktree or its status cannot be read, the dirty-state
detector returns false (clean); it is a total boolean function, so no error
is ever propagated. -/
theorem c8_status_failure_defaults_clean (wt : Option (Option (List FileStatus)))
    (h : wt = none ∨ wt = some none) : hasUncommittedChanges wt = false := by
  rcases h with h | h <;> subst h <;> rfl

/-- Witness for C8 at both failure inputs: a missing worktree and a failing
status read. -/
theorem c8_witness :
    hasUncommittedChanges (none : Option (Option (List FileStatus))) = false ∧
    hasUncommittedChanges (some (none : Option (List FileStatus))) = false :=
  ⟨c8_status_failure_defaults_clean none (Or.inl rfl),
   c8_status_failure_defaults_clean (some none) (Or.inr rfl)⟩

/-- C2 counterexample: with HEAD one commit past tag v1.0.0 the code renders
describe "v1.0.0-1-g1111111", while the number of commits strictly between the
tag and HEAD along the traversal is 0, so describe differs from
"{tag}-{d}-g{commitShort}" when d is taken to be that strictly-between
count as the claim states. -/
theorem c2_counterexample :
    getGitDescribe exTagMapC2 "1111111111" ["1111111111", "2222222222"] =
      ("v1.0.0-1-g1111111", "v1.0.0") ∧
    strictlyBetweenCount exTagMapC2 ["1111111111", "2222222222"] = 0 ∧
    (getGitDescribe exTagMapC2 "1111111111" ["1111111111", "2222222222"]).1 ≠
      "v1.0.0" ++ "-" ++
        toString (strictlyBetweenCount exTagMapC2 ["1111111111", "2222222222"]) ++
        "-g" ++ commitShortOf "1111111111" := by
  refine ⟨?_, ?_, ?_⟩ <;> decide

/-- C2 (amended): when HEAD is not exactly tagged and the history walk finds a
tag with a non-empty name at accumulated distance k, the describe engine
returns describe = "{tag}-{k}-g{commitShort}" and latestTag = tag, where k
counts the commits visited strictly before the found tag, HEAD itself
included — one more than the number of commits strictly between the tag and
HEAD along the traversal path. -/
theorem c2_describe_distance_amended
    (tagMap : String → Option String) (head : String) (rest : List String)
    (t : String) (k : Nat)
    (hhead : tagMap head = none)
    (hfind : findTagFrom tagMap (head :: rest) 0 = (t, k))
    (ht : t ≠ "") :
    getGitDescribe tagMap head (head :: rest) =
      (t ++ "-" ++ toString k ++ "-g" ++ commitShortOf head, t) ∧
    k = strictlyBetweenCount tagMap (head :: rest) + 1 := by
  constructor
  · simp [getGitDescribe, hhead, hfind, ht]
  · have hk := findTagFrom_found_distance tagMap (head :: rest) 0 t k hfind ht
    simp [List.takeWhile_cons, hhead] at hk
    simp [strictlyBetweenCount]
    omega

/-- Witness for C2 (amended) with HEAD five commits past tag v1.0.0, matching
the spec example v1.0.0-5-g{hex7}. -/
theorem c2_witness :
    getGitDescribe exTagMapC2w "aaaaaaa222"
        ["aaaaaaa222", "c1", "c2", "c3", "c4", "tag1111111"] =
      ("v1.0.0-5-gaaaaaaa", "v1.0.0") ∧
    (5 : Nat) = strictlyBetweenCount exTagMapC2w
        ["aaaaaaa222", "c1", "c2", "c3", "c4", "tag1111111"] + 1 := by
  have h := c2_describe_distance_amended exTagMapC2w "aaaaaaa222"
    ["c1", "c2", "c3", "c4", "tag1111111"] "v1.0.0" 5 (by decide) (by decide) (by decide)
  exact ⟨by rw [h.1]; decide, h.2⟩

/-- C5: a commit that is a key of the tag map makes the describe engine
return the bare tag name as both describe and latestTag, never the
"tag-0-ghash" rendering; and the full pipeline on the default branch with a
clean tree and HEAD exactly at tag v1.0.0 yields version "v1.0.0". -/
theorem c5_exact_tag_describe :
    (∀ (tagMap : String → Option String) (hash : String) (log : List String) (t : String),
      tagMap hash = some t → getGitDescribe tagMap hash log = (t, t)) ∧
    (∀ (db : String) (s : RepoState) (now : DateTime),
      db ≠ "" → s.headBranch = some db →
      buildTagMap s.tagRefs s.headHash = some "v1.0.0" →
      hasUncommittedChanges s.worktree = false →
      (resolveState db s now).version = "v1.0.0") := by
  constructor
  · intro tagMap hash log t h
    simp [getGitDescribe, h]
  · intro db s now hdb hb htag hclean
    have hne : ("v1.0.0" : String) ≠ "" := by decide
    simp [resolveState, hdb, hb, hclean, getGitDescribe, htag, baseVersion, hne,
      applyDirtySuffix]

/-- Witness for C5: a one-commit repository on main with the commit tagged
v1.0.0 and a clean tree. -/
theorem c5_witness :
    getGitDescribe (buildTagMap exStateC5.tagRefs) "abcdef0123" ["abcdef0123"] =
      ("v1.0.0", "v1.0.0") ∧
    (resolveState "main" exStateC5 ⟨2025, 10, 11, 0, 0, 0⟩).version = "v1.0.0" :=
  ⟨c5_exact_tag_describe.1 (buildTagMap exStateC5.tagRefs) "abcdef0123" ["abcdef0123"]
      "v1.0.0" (by decide),
   c5_exact_tag_describe.2 "main" exStateC5 ⟨2025, 10, 11, 0, 0, 0⟩ (by decide) rfl
      (by decide) rfl⟩

/-- C6: in a repository whose tag names are non-empty, the describe string is
empty exactly when no commit of the HEAD ancestry (HEAD itself included)
carries a tag. -/
theorem c6_describe_empty_iff_no_reachable_tag
    (tagMap : String → Option String) (head : String) (rest : List String)
    (htags : ∀ c t, tagMap c = some t → t ≠ "") :
    ((getGitDescribe tagMap head (head :: rest)).1 = "" ↔
      ∀ c ∈ head :: rest, tagMap c = none) := by
  cases hh : tagMap head with
  | some t =>
    constructor
    · intro h
      simp [getGitDescribe, hh] at h
      exact absurd h (htags head t hh)
    · intro h
      have h2 := h head (List.mem_cons_self head rest)
      rw [hh] at h2
      exact absurd h2 (by simp)
  | none =>
    by_cases h1 : (findTagFrom tagMap (head :: rest) 0).1 = ""
    · have hall := findTagFrom_not_found tagMap htags (head :: rest) 0 h1
      constructor
      · intro _
        exact hall
      · intro _
        simp [getGitDescribe, hh, h1]
    · obtain ⟨c, hc, hcm⟩ := findTagFrom_found_mem tagMap (head :: rest) 0 h1
      constructor
      · intro hdesc
        exfalso
        have hne : (getGitDescribe tagMap head (head :: rest)).1 ≠ "" := by
          have e1 := string_append_ne_empty_left
            (findTagFrom tagMap (head :: rest) 0).1 "-" h1
          have e2 := string_append_ne_empty_left _
            (toString (findTagFrom tagMap (head :: rest) 0).2) e1
          have e3 := string_append_ne_empty_left _ "-g" e2
          have e4 := string_append_ne_empty_left _ (commitShortOf head) e3
          simpa [getGitDescribe, hh, h1] using e4
        exact hne hdesc
      · intro hnone
        have h2 := hnone c hc
        rw [hcm] at h2
        exact absurd h2 (by simp)

/-- Witness for C6: a repository with no tags at all has an empty describe. -/
theorem c6_witness :
    (getGitDescribe exTagMapC6 "aaaa" ("aaaa" :: [])).1 = "" ↔
      ∀ c ∈ "aaaa" :: ([] : List String), exTagMapC6 c = none :=
  c6_describe_empty_iff_no_reachable_tag exTagMapC6 "aaaa" []
    (by intro c t h; simp [exTagMapC6] at h)

/-- C7: the displayed tag is enumeration-order dependent, not a function of
the set of tag references: the two enumeration orders of the same pair of
tags on commit h1 (a permutation of one another) make the describe engine
select different tags. -/
theorem c7_tag_selection_order_dependent :
    List.Perm exTagRefsA exTagRefsB ∧
    (getGitDescribe (buildTagMap exTagRefsA) "h1" []).2 = "v1.0.1" ∧
    (getGitDescribe (buildTagMap exTagRefsB) "h1" []).2 = "v1.0.0" ∧
    getGitDescribe (buildTagMap exTagRefsA) "h1" [] ≠
      getGitDescribe (buildTagMap exTagRefsB) "h1" [] := by
  refine ⟨?_, by decide, by decide, by decide⟩
  unfold exTagRefsA exTagRefsB
  exact List.Perm.swap _ _ _

/-- C9: resolving from a subdirectory of the repository (no nested .git
marker in between) yields exactly the same result as resolving from the
repository root: the locator returns the nearest marked ancestor and the
rest of the pipeline reads only from that root. -/
theorem c9_subdirectory_resolution
    (hasGit : List String → Bool) (repoAt : List String → RepoState)
    (db : String) (now : DateTime) (root extra : List String)
    (hroot : hasGit root = true)
    (hmid : ∀ e, e <:+ extra → e ≠ [] → hasGit (e ++ root) = false) :
    getVersionInfo hasGit repoAt db now (extra ++ root) =
      getVersionInfo hasGit repoAt db now root := by
  unfold getVersionInfo
  rw [findGitRoot_descendant hasGit root hroot extra hmid,
    findGitRoot_self hasGit root hroot]

/-- Witness for C9: resolving from /repo/sub1/sub2 equals resolving from
/repo when /repo holds the only .git marker. -/
theorem c9_witness :
    getVersionInfo exHasGit exRepoAt "main" ⟨2025, 10, 11, 0, 0, 0⟩
        (["sub2", "sub1"] ++ ["repo"]) =
      getVersionInfo exHasGit exRepoAt "main" ⟨2025, 10, 11, 0, 0, 0⟩ ["repo"] := by
  apply c9_subdirectory_resolution exHasGit exRepoAt "main" ⟨2025, 10, 11, 0, 0, 0⟩
    ["repo"] ["sub2", "sub1"] (by decide)
  intro e he hne
  have hmem : e ∈ List.tails ["sub2", "sub1"] := (List.mem_tails e ["sub2", "sub1"]).mpr he
  have hmem2 : e ∈ ([["sub2", "sub1"], ["sub1"], []] : List (List String)) := hmem
  simp at hmem2
  rcases hmem2 with h | h | h
  · subst h; decide
  · subst h; decide
  · exact absurd h hne

/-- C10: the describe engine returns one of exactly three shapes — both
components empty, both the same bare tag, or "{tag}-{d}-g{short}" paired
with the tag — so latestTag is empty exactly when describe is, and latestTag
is always a prefix of describe. -/
theorem c10_describe_shapes (tagMap : String → Option String) (hash : String)
    (log : List String) :
    ((getGitDescribe tagMap hash log).1 = "" ↔ (getGitDescribe tagMap hash log).2 = "") ∧
    (∃ suf, (getGitDescribe tagMap hash log).1 = (getGitDescribe tagMap hash log).2 ++ suf) ∧
    (getGitDescribe tagMap hash log = ("", "") ∨
     (∃ t : String, getGitDescribe tagMap hash log = (t, t)) ∨
     (∃ (t : String) (k : Nat), t ≠ "" ∧ getGitDescribe tagMap hash log =
        (t ++ ("-" ++ toString k ++ "-g" ++ commitShortOf hash), t))) := by
  cases hh : tagMap hash with
  | some t =>
    have he : getGitDescribe tagMap hash log = (t, t) := by
      simp [getGitDescribe, hh]
    rw [he]
    exact ⟨Iff.rfl, ⟨"", (String.append_empty t).symm⟩, Or.inr (Or.inl ⟨t, rfl⟩)⟩
  | none =>
    by_cases h1 : (findTagFrom tagMap log 0).1 = ""
    · have he : getGitDescribe tagMap hash log = ("", "") := by
        simp [getGitDescribe, hh, h1]
      rw [he]
      exact ⟨Iff.rfl, ⟨"", rfl⟩, Or.inl rfl⟩
    · have he : getGitDescribe tagMap hash log =
          ((findTagFrom tagMap log 0).1 ++ "-" ++ toString (findTagFrom tagMap log 0).2 ++
            "-g" ++ commitShortOf hash, (findTagFrom tagMap log 0).1) := by
        simp [getGitDescribe, hh, h1]
      rw [he]
      have hne : (findTagFrom tagMap log 0).1 ++ "-" ++ toString (findTagFrom tagMap log 0).2 ++
          "-g" ++ commitShortOf hash ≠ "" := by
        have e1 := string_append_ne_empty_left (findTagFrom tagMap log 0).1 "-" h1
        have e2 := string_append_ne_empty_left _ (toString (findTagFrom tagMap log 0).2) e1
        have e3 := string_append_ne_empty_left _ "-g" e2
        exact string_append_ne_empty_left _ (commitShortOf hash) e3
      refine ⟨⟨fun h => absurd h hne, fun h => absurd h h1⟩,
        ⟨"-" ++ toString (findTagFrom tagMap log 0).2 ++ "-g" ++ commitShortOf hash,
          by simp [String.append_assoc]⟩,
        Or.inr (Or.inr ⟨(findTagFrom tagMap log 0).1, (findTagFrom tagMap log 0).2, h1,
          by simp [String.append_assoc]⟩)⟩

end GitVersion

